import Mathlib

/-
Verification of the smats symbolic-expression core (src/smats/symbolic).

The C++ code is templated over a numeric scalar type T (int, long, float,
double).  The embedding uses exact rationals for T: every concrete scalar
appearing in the claims is exactly representable, and all arithmetic the
claims exercise (+, -, *, /, integer powers) is exact for the floating
instantiations on those values and coincides with the integer
instantiations on integer-valued inputs.

Modelling conventions, matching the sources:
- Expressions are immutable values; the shared_ptr plumbing, use_count
  fast paths and in-place constant mutation of the C++ code only choose
  between allocating and reusing cells and never change the structural
  value produced, so they are not modelled.
- std::map<Expression, V> is modelled as an association list strictly
  sorted by the total order Expression::less, with the same
  lower-bound-style find / ordered insert behaviour.
- SMATS_RUNTIME_ERROR / SMATS_UNREACHABLE / SMATS_NOT_IMPLEMENTED are
  modelled as errors of an Except monad (they throw, or call
  std::terminate, in every buildable configuration).  SMATS_ASSERT checks
  document conditions the author expects to hold; they are modelled as
  no-ops (the NDEBUG semantics).
- The mutually recursive construction / expansion routines are given a
  fuel parameter; running out of fuel is a distinguished error, so any
  result other than outOfFuel is the value the C++ recursion computes.
-/

namespace Smats

abbrev VarId := Nat

/-- One expression cell, after the ExpressionCell hierarchy:
Constant, Var, Add (constant + sum of coeff * term over an ordered map),
Mul (constant * product of base ^ exponent over an ordered map),
Div, Pow and the NaN sentinel. -/
inductive Expr : Type where
  | const (value : ℚ)
  | var (v : VarId)
  | add (c : ℚ) (terms : List (Expr × ℚ))
  | mul (c : ℚ) (factors : List (Expr × Expr))
  | div (e1 e2 : Expr)
  | pow (e1 e2 : Expr)
  | nan

/-- Numeric position of each kind in the ExpressionKind enum
(Constant, Var, Add, Mul, Div, ..., Pow at 9, ..., NaN at 25). -/
def kindIdx : Expr → Nat
  | .const _ => 0
  | .var _ => 1
  | .add _ _ => 2
  | .mul _ _ => 3
  | .div _ _ => 4
  | .pow _ _ => 9
  | .nan => 25

def isConst : Expr → Bool
  | .const _ => true
  | _ => false

def isVar : Expr → Bool
  | .var _ => true
  | _ => false

def isAdd : Expr → Bool
  | .add _ _ => true
  | _ => false

def isMul : Expr → Bool
  | .mul _ _ => true
  | _ => false

def isDiv : Expr → Bool
  | .div _ _ => true
  | _ => false

def isPow : Expr → Bool
  | .pow _ _ => true
  | _ => false

/-- Expression::is_constant(const T& value). -/
def isConstantVal : Expr → ℚ → Bool
  | .const v, q => v == q
  | _, _ => false

/-- is_integer for the floating instantiations: the value has no
fractional part (modf(v, nullptr) == 0.0); exact on rationals. -/
def isInteger (q : ℚ) : Bool := q.den == 1

mutual

/-- Expression::equal_to: same kind, then recursive structural equality of
the cell content; two NaN cells are never equal.  Add/Mul compare the
constant, the map sizes and then the entries pairwise in map order. -/
def eequal : Expr → Expr → Bool
  | .const a, .const b => a == b
  | .var a, .var b => a == b
  | .add c1 t1, .add c2 t2 => c1 == c2 && t1.length == t2.length && addListEqual t1 t2
  | .mul c1 f1, .mul c2 f2 => c1 == c2 && f1.length == f2.length && mulListEqual f1 f2
  | .div a1 b1, .div a2 b2 => eequal a1 a2 && eequal b1 b2
  | .pow a1 b1, .pow a2 b2 => eequal a1 a2 && eequal b1 b2
  | _, _ => false

def addListEqual : List (Expr × ℚ) → List (Expr × ℚ) → Bool
  | [], _ => true
  | _ :: _, [] => true
  | p :: ps, q :: qs => eequal p.1 q.1 && p.2 == q.2 && addListEqual ps qs

def mulListEqual : List (Expr × Expr) → List (Expr × Expr) → Bool
  | [], _ => true
  | _ :: _, [] => true
  | p :: ps, q :: qs => eequal p.1 q.1 && eequal p.2 q.2 && mulListEqual ps qs

end

mutual

/-- Expression::less: compare the kinds first, then dispatch to the cell
comparison of the common kind.  Faithful to the sources, including the
Add/Mul entry comparator whose key-equality branch repeats the key-less
test (so entries fall through to the value comparison whenever the first
key is not less than the second).  The reversed comparator calls of
std::lexicographical_compare appear as egreater, a structurally recursive
twin computing less with the operands swapped; the lemma egreaterSwap
below proves egreater a b = eless b a. -/
def eless (a b : Expr) : Bool :=
  if kindIdx a < kindIdx b then true
  else if kindIdx b < kindIdx a then false
  else
    match a, b with
    | .const x, .const y => decide (x < y)
    | .var x, .var y => decide (x < y)
    | .add c1 t1, .add c2 t2 =>
      if c1 < c2 then true
      else if c2 < c1 then false
      else addListLex t1 t2
    | .mul c1 f1, .mul c2 f2 =>
      if c1 < c2 then true
      else if c2 < c1 then false
      else mulListLex f1 f2
    | .div a1 b1, .div a2 b2 => eless a1 a2 || (eequal a1 a2 && eless b1 b2)
    | .pow a1 b1, .pow a2 b2 => eless a1 a2 || (eequal a1 a2 && eless b1 b2)
    | _, _ => false
termination_by structural a

/-- Expression::less with the operands swapped: egreater a b computes
less(b, a), written so that the recursion descends through the first
argument (see egreaterSwap). -/
def egreater (a b : Expr) : Bool :=
  if kindIdx b < kindIdx a then true
  else if kindIdx a < kindIdx b then false
  else
    match a, b with
    | .const x, .const y => decide (y < x)
    | .var x, .var y => decide (y < x)
    | .add c1 t1, .add c2 t2 =>
      if c2 < c1 then true
      else if c1 < c2 then false
      else addListLexRev t1 t2
    | .mul c1 f1, .mul c2 f2 =>
      if c2 < c1 then true
      else if c1 < c2 then false
      else mulListLexRev f1 f2
    | .div a1 b1, .div a2 b2 => egreater a1 a2 || (eequal a2 a1 && egreater b1 b2)
    | .pow a1 b1, .pow a2 b2 => egreater a1 a2 || (eequal a2 a1 && egreater b1 b2)
    | _, _ => false
termination_by structural a

/-- std::lexicographical_compare over Add map entries, with the entry
comparator of ExpressionAdd::less inlined at both call sites: the
comparator tests lhs.first.less(rhs.first) twice, so the second test
never fires and an entry pair falls through to the coefficient comparison
whenever the first key is not less than the second. -/
def addListLex : List (Expr × ℚ) → List (Expr × ℚ) → Bool
  | _, [] => false
  | [], _ :: _ => true
  | p :: ps, q :: qs =>
    if (if eless p.1 q.1 then true else decide (p.2 < q.2)) then true
    else if (if egreater p.1 q.1 then true else decide (q.2 < p.2)) then false
    else addListLex ps qs
termination_by structural l1 _ => l1

/-- addListLex with the operand lists swapped: addListLexRev l1 l2
computes addListLex l2 l1, recursing through the first list. -/
def addListLexRev : List (Expr × ℚ) → List (Expr × ℚ) → Bool
  | [], _ => false
  | _ :: _, [] => true
  | p :: ps, q :: qs =>
    if (if egreater p.1 q.1 then true else decide (q.2 < p.2)) then true
    else if (if eless p.1 q.1 then true else decide (p.2 < q.2)) then false
    else addListLexRev ps qs
termination_by structural l1 _ => l1

/-- std::lexicographical_compare over Mul map entries, with the entry
comparator of ExpressionMul::less (same repeated-test slip, with the
exponent comparison in the fall-through position) inlined at both call
sites. -/
def mulListLex : List (Expr × Expr) → List (Expr × Expr) → Bool
  | _, [] => false
  | [], _ :: _ => true
  | p :: ps, q :: qs =>
    if (if eless p.1 q.1 then true else eless p.2 q.2) then true
    else if (if egreater p.1 q.1 then true else egreater p.2 q.2) then false
    else mulListLex ps qs
termination_by structural l1 _ => l1

/-- mulListLex with the operand lists swapped, recursing through the
first list. -/
def mulListLexRev : List (Expr × Expr) → List (Expr × Expr) → Bool
  | [], _ => false
  | _ :: _, [] => true
  | p :: ps, q :: qs =>
    if (if egreater p.1 q.1 then true else egreater p.2 q.2) then true
    else if (if eless p.1 q.1 then true else eless p.2 q.2) then false
    else mulListLexRev ps qs
termination_by structural l1 _ => l1

end

/-- Modelled from the spec: Expression::is_leaf is declared in
expression.h but defined nowhere under src; spec section 3 designates the
Constant and Var cells as the leaves of the data model. -/
def isLeaf : Expr → Bool
  | .const _ => true
  | .var _ => true
  | _ => false

/-- The is_expanded flag each cell receives at construction (nothing in
the sources ever updates it afterwards): Constant and Var are expanded,
a Pow cell is expanded when both operands are leaves, every other cell is
constructed with the flag false. -/
def isExpanded : Expr → Bool
  | .const _ => true
  | .var _ => true
  | .pow a b => isLeaf a && isLeaf b
  | _ => false

/-- Failure conditions of the C++ code: thrown exceptions, the
SMATS_UNREACHABLE / SMATS_NOT_IMPLEMENTED control-flow failures, plus two
model-side conditions (a std::pow result that is not a rational number,
and fuel exhaustion of the embedding). -/
inductive Err : Type where
  | unreachableBranch
  | notImplemented
  | cannotEvaluateNaN
  | cannotExpandNaN
  | divisionByZero (numerator : ℚ)
  | indeterminateForm
  | powDomain (base exponent : ℚ)
  | unboundVariable (v : VarId)
  | nonRationalPow (base exponent : ℚ)
  | outOfFuel
deriving DecidableEq

/-- Expression::lhs: defined for Pow and Div cells, otherwise the switch
falls into SMATS_UNREACHABLE. -/
def lhsE : Expr → Except Err Expr
  | .pow a _ => .ok a
  | .div a _ => .ok a
  | _ => .error .unreachableBranch

/-- Expression::rhs: defined for Pow and Div cells, otherwise the switch
falls into SMATS_UNREACHABLE. -/
def rhsE : Expr → Except Err Expr
  | .pow _ b => .ok b
  | .div _ b => .ok b
  | _ => .error .unreachableBranch

/-- Expression::constant: defined for Constant, Add and Mul cells,
otherwise unreachable. -/
def constantE : Expr → Except Err ℚ
  | .const v => .ok v
  | .add c _ => .ok c
  | .mul c _ => .ok c
  | _ => .error .unreachableBranch

/-- ExpressionPow::check_domain for the floating instantiations: a finite
negative base with a finite non-integer exponent is a domain error
(rationals are always finite); the int/long specializations are no-ops. -/
def checkDomain (v1 v2 : ℚ) : Except Err Unit :=
  if v1 < 0 && !(isInteger v2) then .error (.powDomain v1 v2) else .ok ()

/-- Model of std::pow on the exact-rational scalar: integer exponents give
the exact integer power (a zero base with a negative exponent yields
infinity in C++, which has no rational value, hence an error of the
model); a non-integer exponent has a rational value only in the trivial
base-one and base-zero cases. -/
def ratPow (b e : ℚ) : Except Err ℚ :=
  if isInteger e then
    if b == 0 && e < 0 then .error (.nonRationalPow b e)
    else .ok (b ^ e.num)
  else if b == 1 then .ok 1
  else if b == 0 && 0 < e then .ok 0
  else .error (.nonRationalPow b e)

/-- Coefficient-map update expr_to_coeff_map_[k] += c of the Add factory:
operator[] default-inserts a zero coefficient at the ordered position,
then += adds; no zero-result entry is ever erased on this path. -/
def addMapAdd : List (Expr × ℚ) → Expr → ℚ → List (Expr × ℚ)
  | [], k, c => [(k, c)]
  | (e, v) :: rest, k, c =>
    if eless e k then (e, v) :: addMapAdd rest k c
    else if eless k e then (k, c) :: (e, v) :: rest
    else (e, v + c) :: rest

/-- std::map::find on the base-to-exponent map: walk the ordered entries,
return the mapped exponent of the first key equivalent to k. -/
def mulMapFind : List (Expr × Expr) → Expr → Option Expr
  | [], _ => none
  | (b, e) :: rest, k =>
    if eless b k then mulMapFind rest k
    else if eless k b then none
    else some e

/-- std::map::emplace on the base-to-exponent map: insert at the ordered
position, keep the existing entry if an equivalent key is present. -/
def mulMapEmplace : List (Expr × Expr) → Expr → Expr → List (Expr × Expr)
  | [], k, v => [(k, v)]
  | (b, e) :: rest, k, v =>
    if eless b k then (b, e) :: mulMapEmplace rest k v
    else if eless k b then (k, v) :: (b, e) :: rest
    else (b, e) :: rest

/-- Overwrite the exponent mapped to an existing key (the
iterator-mediated update of ExpressionMulFactory::multiply). -/
def mulMapReplace : List (Expr × Expr) → Expr → Expr → List (Expr × Expr)
  | [], _, _ => []
  | (b, e) :: rest, k, v =>
    if eless b k then (b, e) :: mulMapReplace rest k v
    else if eless k b then (b, e) :: rest
    else (b, v) :: rest

/-- std::map::erase of the entry of an existing key. -/
def mulMapErase : List (Expr × Expr) → Expr → List (Expr × Expr)
  | [], _ => []
  | (b, e) :: rest, k =>
    if eless b k then (b, e) :: mulMapErase rest k
    else if eless k b then (b, e) :: rest
    else rest

/-- ExpressionAddFactory state: a constant plus the coefficient map. -/
structure AddFactory : Type where
  constant : ℚ
  terms : List (Expr × ℚ)

/-- ExpressionAddFactory constructor from a cell: a Constant contributes
its value, an Add cell is copied, every other cell becomes a term with
coefficient one. -/
def AddFactory.fromExpr : Expr → AddFactory
  | .const v => { constant := v, terms := [] }
  | .add c m => { constant := c, terms := m }
  | e => { constant := 0, terms := [(e, 1)] }

/-- ExpressionAddFactory::operator+= on a cell: Constants fold into the
constant; an Add cell merges its constant and its coefficient map
entry-wise; a Mul cell with constant different from one hits
SMATS_UNREACHABLE, and one with constant equal to one falls through the
switch without being recorded at all; any other cell gains coefficient
one. -/
def AddFactory.plusCell (f : AddFactory) : Expr → Except Err AddFactory
  | .const v => .ok { f with constant := f.constant + v }
  | .add c m =>
    .ok { constant := f.constant + c,
          terms := m.foldl (fun acc p => addMapAdd acc p.1 p.2) f.terms }
  | .mul c _ => if c == 1 then .ok f else .error .unreachableBranch
  | e => .ok { f with terms := addMapAdd f.terms e 1 }

/-- ExpressionAddFactory::negate. -/
def AddFactory.negate (f : AddFactory) : AddFactory :=
  { constant := -f.constant, terms := f.terms.map (fun p => (p.1, -p.2)) }

/-- ExpressionAddFactory::build. -/
def AddFactory.build (f : AddFactory) : Expr :=
  if f.constant == 0 then
    match f.terms with
    | [] => .const 0
    | [(e, c)] => if c == 1 then e else .mul c [(e, .const 1)]
    | _ => .add f.constant f.terms
  else .add f.constant f.terms

/-- ExpressionMulFactory state: a constant plus the base-to-exponent
map. -/
structure MulFactory : Type where
  constant : ℚ
  factors : List (Expr × Expr)

/-- ExpressionMulFactory constructor from a cell: a Constant contributes
its value, a Mul cell is copied, a Pow cell contributes its operands as a
single map entry, every other cell becomes a base with exponent one. -/
def MulFactory.fromExpr : Expr → MulFactory
  | .const v => { constant := v, factors := [] }
  | .mul c m => { constant := c, factors := m }
  | .pow a b => { constant := 1, factors := [(a, b)] }
  | e => { constant := 1, factors := [(e, .const 1)] }

/-- ExpressionMulFactory::negate. -/
def MulFactory.negate (f : MulFactory) : MulFactory :=
  { f with constant := -f.constant }

/-- ExpressionMulFactory::build. -/
def MulFactory.build (f : MulFactory) : Expr :=
  if f.constant == 0 then .const 0
  else
    match f.factors with
    | [] => .const f.constant
    | [(b, e)] =>
      if f.constant == 1 then
        if isConstantVal e 1 then b else .pow b e
      else .mul f.constant f.factors
    | _ => .mul f.constant f.factors

/-- Modelled from the spec: ExpressionMulFactory::consume is declared in
expression_factory.h but has no definition under src; spec section 4.3
step 4 uses it to obtain the product expression accumulated by the
factory, as build does. -/
def MulFactory.consume (f : MulFactory) : Expr := f.build

mutual

/-- Expression::operator- (unary): constant folding, sign pushing into
Add/Mul maps via the factories, otherwise multiplication by minus one. -/
def negE : Nat → Expr → Except Err Expr
  | 0, _ => .error .outOfFuel
  | fuel + 1, e =>
    match e with
    | .const v => pure (.const (-v))
    | .add c ts => pure (AddFactory.build (AddFactory.negate ⟨c, ts⟩))
    | .mul c fs => pure (MulFactory.build (MulFactory.negate ⟨c, fs⟩))
    | e => mulE fuel (.const (-1)) e

/-- Expression::operator+= on a scalar. -/
def addT : Nat → Expr → ℚ → Except Err Expr
  | 0, _, _ => .error .outOfFuel
  | _fuel + 1, e, o =>
    if isConstantVal e 0 then pure (.const o)
    else
      match e with
      | .const v => pure (.const (v + o))
      | e => do
        let f0 := AddFactory.fromExpr (if isAdd e then e else .const o)
        let f1 ← f0.plusCell (if isAdd e then .const o else e)
        pure f1.build

/-- Expression::operator+= on an expression. -/
def addE : Nat → Expr → Expr → Except Err Expr
  | 0, _, _ => .error .outOfFuel
  | _fuel + 1, a, b =>
    if isConstantVal a 0 then pure b
    else if isConstantVal b 0 then pure a
    else
      match a, b with
      | .const va, .const vb => pure (.const (va + vb))
      | a, b => do
        let f0 := AddFactory.fromExpr (if isAdd a then a else b)
        let f1 ← f0.plusCell (if isAdd a then b else a)
        pure f1.build

/-- Expression::operator-= on a scalar. -/
def subT : Nat → Expr → ℚ → Except Err Expr
  | 0, _, _ => .error .outOfFuel
  | fuel + 1, e, o =>
    match e with
    | .const v => pure (.const (v - o))
    | e => addT fuel e (-o)

/-- Expression::operator-= on an expression. -/
def subE : Nat → Expr → Expr → Except Err Expr
  | 0, _, _ => .error .outOfFuel
  | fuel + 1, a, b =>
    match a, b with
    | .const va, .const vb => pure (.const (va - vb))
    | a, b => do
      let nb ← negE fuel b
      addE fuel a nb

/-- Expression::operator*= on a scalar. -/
def mulT : Nat → Expr → ℚ → Except Err Expr
  | 0, _, _ => .error .outOfFuel
  | fuel + 1, e, o =>
    if isConstantVal e 1 then pure (.const o)
    else if isConstantVal e 0 then pure e
    else if o == 1 then pure e
    else if o == 0 then pure (.const 0)
    else if isDiv e then do
      let l ← lhsE e
      let r ← rhsE e
      let p ← mulT fuel l o
      divE fuel p r
    else
      match e with
      | .const v => pure (.const (v * o))
      | e =>
        if o == -1 && isAdd e then
          pure (AddFactory.build (AddFactory.negate (AddFactory.fromExpr e)))
        else if o == -1 && isMul e then
          pure (MulFactory.build (MulFactory.negate (MulFactory.fromExpr e)))
        else
          match e with
          | .pow base expo =>
            if eequal base (.const o) then do
              let x ← addT fuel expo 1
              powE fuel base x
            else mulFlatten fuel e (.const o)
          | e => mulFlatten fuel e (.const o)

/-- Expression::operator*= on an expression, with every simplification of
the sources in order: units and zeros, constant folding, sign flipping on
a minus-one operand, the three division rewrites, the pow merges and the
squaring of equal operands, then flattening through the Mul factory. -/
def mulE : Nat → Expr → Expr → Except Err Expr
  | 0, _, _ => .error .outOfFuel
  | fuel + 1, a, b =>
    if isConstantVal a 1 then pure b
    else if isConstantVal b 1 then pure a
    else if isConstantVal a 0 then pure a
    else if isConstantVal b 0 then pure (.const 0)
    else
      match a, b with
      | .const va, .const vb => pure (.const (va * vb))
      | a, b =>
        if isConstantVal a (-1) && isAdd b then
          pure (AddFactory.build (AddFactory.negate (AddFactory.fromExpr b)))
        else if isConstantVal a (-1) && isMul b then
          pure (MulFactory.build (MulFactory.negate (MulFactory.fromExpr b)))
        else if isConstantVal b (-1) && isAdd a then
          pure (AddFactory.build (AddFactory.negate (AddFactory.fromExpr a)))
        else if isConstantVal b (-1) && isMul a then
          pure (MulFactory.build (MulFactory.negate (MulFactory.fromExpr a)))
        else
          match a, b with
          | .div la ra, .div lb rb => do
            let p ← mulE fuel la lb
            let q ← mulE fuel ra rb
            divE fuel p q
          | .div (.const c) ra, b => do
            let p ← mulT fuel b c
            divE fuel p ra
          | a, .div (.const c) rb => do
            let l ← lhsE a
            let p ← mulT fuel l c
            divE fuel p rb
          | .pow ba ea, .pow bb eb =>
            if eequal ba bb then do
              let s ← addE fuel ea eb
              powE fuel ba s
            else if eequal ba (.pow bb eb) then do
              let s ← addT fuel ea 1
              powE fuel ba s
            else mulETail fuel a b
          | .pow ba ea, b =>
            if eequal ba b then do
              let s ← addT fuel ea 1
              powE fuel ba s
            else mulETail fuel a b
          | a, .pow bb eb =>
            if eequal bb a then do
              let s ← addT fuel eb 1
              powE fuel bb s
            else mulETail fuel a b
          | a, b => mulETail fuel a b

/-- Tail of Expression::operator*=: the unsound x * x => pow(x, 2)
rewrite, which reads lhs() of a non-Pow non-Div cell and therefore lands
in the unreachable branch, followed by factory flattening. -/
def mulETail : Nat → Expr → Expr → Except Err Expr
  | 0, _, _ => .error .outOfFuel
  | fuel + 1, a, b =>
    if !(isMul a) && !(isMul b) && eequal a b then do
      let l ← lhsE a
      powE fuel l (.const 2)
    else mulFlatten fuel a b

/-- The flattening tail shared by both multiplication operators: start the
Mul factory from the Mul operand when there is one, multiply the other
operand in, build. -/
def mulFlatten : Nat → Expr → Expr → Except Err Expr
  | 0, _, _ => .error .outOfFuel
  | fuel + 1, a, b => do
    let f0 := MulFactory.fromExpr (if isMul a then a else b)
    let f1 ← mfTimesCell fuel f0 (if isMul a then b else a)
    pure f1.build

/-- Expression::operator/= on a scalar. -/
def divT : Nat → Expr → ℚ → Except Err Expr
  | 0, _, _ => .error .outOfFuel
  | fuel + 1, e, o =>
    if o == 0 then pure .nan
    else if isConstantVal e 0 then pure e
    else if o == 1 then pure e
    else if isConstantVal e o then pure (.const 1)
    else
      match e with
      | .const v => pure (.const (v / o))
      | e => mulE fuel e (.div e (.const o))

/-- Expression::operator/= on an expression: a constant-zero divisor
gives the NaN cell, a constant-one divisor and a zero dividend are
simplified away, structurally equal operands fold to one, two constants
fold, and otherwise the dividend is multiplied by the Div cell. -/
def divE : Nat → Expr → Expr → Except Err Expr
  | 0, _, _ => .error .outOfFuel
  | fuel + 1, a, b =>
    if isConstantVal b 0 then pure .nan
    else if isConstantVal b 1 then pure a
    else if isConstantVal a 0 then pure a
    else if eequal a b then pure (.const 1)
    else
      match a, b with
      | .const va, .const vb => pure (.const (va / vb))
      | a, b => mulE fuel a (.div a b)

/-- Expression::operator^=: constant folding behind the numeric domain
check, exponent zero and one elimination, then the pow-of-pow fold whose
integrality test reads o.rhs() with o the constant exponent. -/
def powE : Nat → Expr → Expr → Except Err Expr
  | 0, _, _ => .error .outOfFuel
  | fuel + 1, a, b =>
    match b with
    | .const vb =>
      match a with
      | .const va => do
        let _ ← checkDomain va vb
        let r ← ratPow va vb
        pure (.const r)
      | a =>
        if vb == 0 then pure (.const 1)
        else if vb == 1 then pure a
        else powTail fuel a b
    | b => powTail fuel a b

/-- Tail of Expression::operator^=: the pow(pow(b,e1),e2) fold and the
default Pow cell construction. -/
def powTail : Nat → Expr → Expr → Except Err Expr
  | 0, _, _ => .error .outOfFuel
  | _fuel + 1, a, b =>
    match a with
    | .pow al ar =>
      if isConst ar && isConst b then do
        let pr ← rhsE b
        let pev ← constantE pr
        let ev ← constantE b
        if isInteger pev && isInteger ev then
          pure (.pow al (.const (pev * ev)))
        else pure (.pow (.pow al ar) b)
      else pure (.pow (.pow al ar) b)
    | a => pure (.pow a b)

/-- ExpressionMulFactory::operator*= on a cell. -/
def mfTimesCell : Nat → MulFactory → Expr → Except Err MulFactory
  | 0, _, _ => .error .outOfFuel
  | fuel + 1, f, o =>
    if f.constant == 0 then pure f
    else
      match o with
      | .const v =>
        if v == 0 then pure ⟨0, []⟩
        else pure ⟨f.constant * v, f.factors⟩
      | .mul c m => do
        let fs ← mfMergeMulMap fuel f.factors m
        pure ⟨f.constant * c, fs⟩
      | .pow a b => mfMultiply fuel f a b
      | o => do
        let fs ← mfMapAdd fuel f.factors o (.const 1)
        pure ⟨f.constant, fs⟩

/-- The loop of the Mul case of ExpressionMulFactory::operator*=:
base_to_exponent_map_[b] += e over the operand map entries. -/
def mfMergeMulMap : Nat → List (Expr × Expr) → List (Expr × Expr) →
    Except Err (List (Expr × Expr))
  | 0, _, _ => .error .outOfFuel
  | _fuel + 1, acc, [] => pure acc
  | fuel + 1, acc, (b, e) :: rest => do
    let acc' ← mfMapAdd fuel acc b e
    mfMergeMulMap fuel acc' rest

/-- base_to_exponent_map_[k] += v: operator[] default-inserts the zero
expression at the ordered position, then Expression::operator+= runs; no
zero-exponent entry is erased on this path. -/
def mfMapAdd : Nat → List (Expr × Expr) → Expr → Expr →
    Except Err (List (Expr × Expr))
  | 0, _, _, _ => .error .outOfFuel
  | fuel + 1, [], k, v => do
    let x ← addE fuel (.const 0) v
    pure [(k, x)]
  | fuel + 1, (b, e) :: rest, k, v =>
    if eless b k then do
      let r ← mfMapAdd fuel rest k v
      pure ((b, e) :: r)
    else if eless k b then do
      let x ← addE fuel (.const 0) v
      pure ((k, x) :: (b, e) :: rest)
    else do
      let x ← addE fuel e v
      pure ((b, x) :: rest)

/-- ExpressionMulFactory::multiply(base, exponent): the (x^e1)^e2 fold on
an integral inner exponent, then merge into the map, erasing an entry
whose merged exponent becomes the constant zero. -/
def mfMultiply : Nat → MulFactory → Expr → Expr → Except Err MulFactory
  | 0, _, _, _ => .error .outOfFuel
  | fuel + 1, f, base, exponent =>
    match base, exponent with
    | .pow bl (.const bev), .const ev =>
      if isInteger bev then do
        let x ← mulT fuel (.const ev) bev
        mfMultiply fuel f bl x
      else mfMultiplyTail fuel f base exponent
    | base, exponent => mfMultiplyTail fuel f base exponent

/-- The map-merge part of ExpressionMulFactory::multiply. -/
def mfMultiplyTail : Nat → MulFactory → Expr → Expr → Except Err MulFactory
  | 0, _, _, _ => .error .outOfFuel
  | fuel + 1, f, base, exponent =>
    match mulMapFind f.factors base with
    | some cur => do
      let newExp ← addE fuel cur exponent
      if isConstantVal newExp 0 then pure ⟨f.constant, mulMapErase f.factors base⟩
      else pure ⟨f.constant, mulMapReplace f.factors base newExp⟩
    | none => pure ⟨f.constant, mulMapEmplace f.factors base exponent⟩

/-- Expression::expand: the is_expanded fast path, then the cell
expansion. -/
def expandF : Nat → Expr → Except Err Expr
  | 0, _ => .error .outOfFuel
  | fuel + 1, e => if isExpanded e then pure e else cellExpandF fuel e

/-- Per-cell expand: Constant/Var return themselves, Add re-sums expanded
terms, Mul accumulates expand_multiplication over expand_pow of each
factor, Pow expands both operands then applies expand_pow, Div expands
its operands and then fails with not-implemented, NaN fails. -/
def cellExpandF : Nat → Expr → Except Err Expr
  | 0, _ => .error .outOfFuel
  | fuel + 1, e =>
    match e with
    | .const v => pure (.const v)
    | .var v => pure (.var v)
    | .nan => .error .cannotExpandNaN
    | .add c ts => addExpandLoop fuel (.const c) ts
    | .mul c fs => mulExpandLoop fuel (.const c) fs
    | .pow a b => do
      let a' ← expandF fuel a
      let b' ← expandF fuel b
      expandPowEF fuel a' b'
    | .div a b => do
      let _ ← (if isExpanded a then pure a else expandF fuel a)
      let _ ← (if isExpanded b then pure b else expandF fuel b)
      throw Err.notImplemented

/-- The loop of ExpressionAdd::expand:
result += Expression(term * coeff).expand(). -/
def addExpandLoop : Nat → Expr → List (Expr × ℚ) → Except Err Expr
  | 0, _, _ => .error .outOfFuel
  | _fuel + 1, acc, [] => pure acc
  | fuel + 1, acc, (e, c) :: rest => do
    let p ← mulT fuel e c
    let pe ← expandF fuel p
    let acc' ← addE fuel acc pe
    addExpandLoop fuel acc' rest

/-- The accumulate of ExpressionMul::expand:
init = expand_multiplication(init, expand_pow(expanded base, expanded
exponent)) over the factor map. -/
def mulExpandLoop : Nat → Expr → List (Expr × Expr) → Except Err Expr
  | 0, _, _ => .error .outOfFuel
  | _fuel + 1, acc, [] => pure acc
  | fuel + 1, acc, (b, ex) :: rest => do
    let b' ← (if isExpanded b then pure b else expandF fuel b)
    let ex' ← (if isExpanded ex then pure ex else expandF fuel ex)
    let pw ← expandPowEF fuel b' ex'
    let acc' ← emF fuel acc pw
    mulExpandLoop fuel acc' rest

/-- expand_multiplication: distribute either Add operand over the other,
otherwise plain multiplication. -/
def emF : Nat → Expr → Expr → Except Err Expr
  | 0, _, _ => .error .outOfFuel
  | fuel + 1, e1, e2 =>
    match e1 with
    | .add c ts => do
      let r0 ← emF fuel (.const c) e2
      emLoopLhs fuel r0 ts e2
    | e1 =>
      match e2 with
      | .add c ts => do
        let r0 ← emF fuel e1 (.const c)
        emLoopRhs fuel r0 e1 ts
      | e2 => mulE fuel e1 e2

/-- Distribution loop of expand_multiplication over the left Add operand:
ret += em(em(coeff, term), e2). -/
def emLoopLhs : Nat → Expr → List (Expr × ℚ) → Expr → Except Err Expr
  | 0, _, _, _ => .error .outOfFuel
  | _fuel + 1, acc, [], _ => pure acc
  | fuel + 1, acc, (ex, c) :: rest, e2 => do
    let p1 ← emF fuel (.const c) ex
    let p2 ← emF fuel p1 e2
    let acc' ← addE fuel acc p2
    emLoopLhs fuel acc' rest e2

/-- Distribution loop of expand_multiplication over the right Add
operand: ret += em(em(e1, coeff), term). -/
def emLoopRhs : Nat → Expr → Expr → List (Expr × ℚ) → Except Err Expr
  | 0, _, _, _ => .error .outOfFuel
  | _fuel + 1, acc, _, [] => pure acc
  | fuel + 1, acc, e1, (ex, c) :: rest => do
    let p1 ← emF fuel e1 (.const c)
    let p2 ← emF fuel p1 ex
    let acc' ← addE fuel acc p2
    emLoopRhs fuel acc' e1 rest

/-- expand_pow(base, n): exponentiation by repeated squaring through
expand_multiplication. -/
def expandPowN : Nat → Expr → Nat → Except Err Expr
  | 0, _, _ => .error .outOfFuel
  | fuel + 1, base, n =>
    if n == 0 then pure (.const 1)
    else if n == 1 then pure base
    else do
      let half ← expandPowN fuel base (n / 2)
      if n % 2 == 1 then do
        let p ← emF fuel base half
        emF fuel p half
      else emF fuel half half

/-- expand_pow(base, exponent): a Mul base distributes the exponent onto
every factor; an Add base with a positive integer constant exponent goes
through repeated squaring; everything else is rebuilt with operator^. -/
def expandPowEF : Nat → Expr → Expr → Except Err Expr
  | 0, _, _ => .error .outOfFuel
  | fuel + 1, base, exponent =>
    match base with
    | .mul c m => do
      let m' ← powMulMapLoop fuel m exponent
      let x ← powE fuel (.const c) exponent
      mulE fuel x (MulFactory.consume ⟨1, m'⟩)
    | base =>
      match exponent with
      | .const e =>
        if !(isAdd base) then powE fuel base (.const e)
        else if decide (e ≤ 0) || !(isInteger e) then powE fuel base (.const e)
        else expandPowN fuel base e.num.toNat
      | exponent => powE fuel base exponent

/-- The exponent-rescaling loop of the Mul-base case of expand_pow:
p.second = p.second * exponent over the copied map. -/
def powMulMapLoop : Nat → List (Expr × Expr) → Expr →
    Except Err (List (Expr × Expr))
  | 0, _, _ => .error .outOfFuel
  | _fuel + 1, [], _ => pure []
  | fuel + 1, (b, e) :: rest, exponent => do
    let x ← mulE fuel e exponent
    let r ← powMulMapLoop fuel rest exponent
    pure ((b, x) :: r)

end

/-- An Environment value: the variable-to-value map, keyed by variable
id. -/
abbrev Env := List (VarId × ℚ)

/-- Environment::at: the value bound to the variable, failing like
std::map::at when the variable is absent. -/
def envAt : Env → VarId → Except Err ℚ
  | [], v => .error (.unboundVariable v)
  | (x, q) :: rest, v => if x == v then .ok q else envAt rest v

mutual

/-- ExpressionCell::evaluate per kind: Constant returns its value, Var
looks the variable up, Add folds acc + coeff * term over the map, Mul
folds with the per-factor exponent dispatch of the sources (an exponent
evaluating to one multiplies the accumulator, zero keeps it, and any
other exponent returns std::pow(base, exponent) discarding the
accumulator), Pow checks the domain then applies std::pow, Div fails on
an exact-zero denominator (indeterminate-form when the numerator is zero
too), NaN always fails. -/
def evaluate : Expr → Env → Except Err ℚ
  | .const v, _ => .ok v
  | .var x, env => envAt env x
  | .add c ts, env => evalAddList ts env c
  | .mul c fs, env => evalMulList fs env c
  | .pow a b, env => do
    let v1 ← evaluate a env
    let v2 ← evaluate b env
    let _ ← checkDomain v1 v2
    ratPow v1 v2
  | .div a b, env => do
    let v1 ← evaluate a env
    let v2 ← evaluate b env
    if v1 == 0 && v2 == 0 then throw Err.indeterminateForm
    else if v2 == 0 then throw (Err.divisionByZero v1)
    else pure (v1 / v2)
  | .nan, _ => .error .cannotEvaluateNaN

def evalAddList : List (Expr × ℚ) → Env → ℚ → Except Err ℚ
  | [], _, acc => .ok acc
  | (e, c) :: rest, env, acc => do
    let v ← evaluate e env
    evalAddList rest env (acc + c * v)

def evalMulList : List (Expr × Expr) → Env → ℚ → Except Err ℚ
  | [], _, acc => .ok acc
  | (b, ex) :: rest, env, acc => do
    let vexp ← evaluate ex env
    if vexp == 1 then do
      let vb ← evaluate b env
      evalMulList rest env (acc * vb)
    else if vexp == 0 then evalMulList rest env acc
    else do
      let vb ← evaluate b env
      let p ← ratPow vb vexp
      evalMulList rest env p

end

/-- The exponent condition of ExpressionMul::compute_is_polynomial and
ExpressionPow::compute_is_polynomial: the exponent is a constant whose
value is a non-negative integer. -/
def expIsNonnegIntConst : Expr → Bool
  | .const q => decide (0 ≤ q) && isInteger q
  | _ => false

mutual

/-- ExpressionCell::is_polynomial as computed by the sources: Constant
and Var cells are constructed with the memoized value true and the NaN
cell with the memoized value false; an Add cell is the conjunction over
its term keys; a Mul cell additionally requires every exponent to be a
non-negative integer constant; a Pow cell requires a polynomial base and
the same exponent condition; a Div cell has no override and inherits the
BinaryExpressionCell conjunction of its two operands. -/
def isPolynomial : Expr → Bool
  | .const _ => true
  | .var _ => true
  | .nan => false
  | .add _ ts => isPolyAddList ts
  | .mul _ fs => isPolyMulList fs
  | .pow a b => isPolynomial a && expIsNonnegIntConst b
  | .div a b => isPolynomial a && isPolynomial b

def isPolyAddList : List (Expr × ℚ) → Bool
  | [] => true
  | (e, _) :: rest => isPolynomial e && isPolyAddList rest

def isPolyMulList : List (Expr × Expr) → Bool
  | [] => true
  | (b, e) :: rest => (isPolynomial b && expIsNonnegIntConst e) && isPolyMulList rest

end

/-- The entry comparator of ExpressionAdd::less as a standalone function
(the comparator body appears inlined inside addListLex): key-less first,
and since the key-equality test repeats the key-less test, otherwise the
coefficient comparison. -/
def addEntryLess : Expr × ℚ → Expr × ℚ → Bool
  | (e1, c1), (e2, c2) => if eless e1 e2 then true else decide (c1 < c2)

/-- The entry comparator of ExpressionMul::less as a standalone function:
key-less first, otherwise the exponent comparison. -/
def mulEntryLess : Expr × Expr → Expr × Expr → Bool
  | (e1, x1), (e2, x2) => if eless e1 e2 then true else eless x1 x2

/-- Checks whether an evaluation outcome is a division-by-zero error. -/
def isDivisionByZeroErr : Except Err ℚ → Bool
  | .error (.divisionByZero _) => true
  | _ => false

/-- Bind of an ok value in the Except monad. -/
theorem except_bind_ok {α β : Type} (a : α) (f : α → Except Err β) :
    (Except.ok a >>= f : Except Err β) = f a := rfl

/-- Bind of an error in the Except monad. -/
theorem except_bind_error {α β : Type} (e : Err) (f : α → Except Err β) :
    ((Except.error e : Except Err α) >>= f : Except Err β) = Except.error e := rfl

/-- pure is ok in the Except monad. -/
theorem except_pure {α : Type} (a : α) : (pure a : Except Err α) = Except.ok a := rfl

/-- throw is error in the Except monad. -/
theorem except_throw {α : Type} (e : Err) : (throw e : Except Err α) = Except.error e := rfl

set_option maxHeartbeats 2000000 in
/-- Joint strong induction showing that the three swapped comparison
functions compute exactly their counterparts with the operands swapped,
so the lexicographical loops above are faithful to the reversed
comparator calls comp(*first2, *first1) of std::lexicographical_compare. -/
theorem swapAll : ∀ n : Nat,
    (∀ a b : Expr, sizeOf a + sizeOf b < n → egreater a b = eless b a) ∧
    (∀ l1 l2 : List (Expr × ℚ), sizeOf l1 + sizeOf l2 < n →
      addListLexRev l1 l2 = addListLex l2 l1) ∧
    (∀ l1 l2 : List (Expr × Expr), sizeOf l1 + sizeOf l2 < n →
      mulListLexRev l1 l2 = mulListLex l2 l1) := by
  intro n
  induction n with
  | zero => exact ⟨fun a b h => absurd h (by omega), fun l1 l2 h => absurd h (by omega),
      fun l1 l2 h => absurd h (by omega)⟩
  | succ n ih =>
    obtain ⟨ihe, iha, ihm⟩ := ih
    refine ⟨?_, ?_, ?_⟩
    · intro a b h
      rw [egreater.eq_def, eless.eq_def]
      cases a <;> cases b <;> simp only [kindIdx] <;> norm_num
      case add.add c1 t1 c2 t2 =>
        rw [iha t1 t2 (by simp at h; omega)]
      case mul.mul c1 f1 c2 f2 =>
        rw [ihm f1 f2 (by simp at h; omega)]
      case div.div a1 b1 a2 b2 =>
        rw [ihe a1 a2 (by simp at h; omega), ihe b1 b2 (by simp at h; omega)]
      case pow.pow a1 b1 a2 b2 =>
        rw [ihe a1 a2 (by simp at h; omega), ihe b1 b2 (by simp at h; omega)]
    · intro l1 l2 h
      cases l1 with
      | nil =>
        cases l2 with
        | nil => rfl
        | cons q qs => rfl
      | cons p ps =>
        cases l2 with
        | nil => rfl
        | cons q qs =>
          obtain ⟨pe, pc⟩ := p
          obtain ⟨qe, qc⟩ := q
          simp only [addListLexRev, addListLex]
          rw [ihe pe qe (by simp at h; omega), ihe qe pe (by simp at h; omega),
              iha ps qs (by simp at h; omega)]
    · intro l1 l2 h
      cases l1 with
      | nil =>
        cases l2 with
        | nil => rfl
        | cons q qs => rfl
      | cons p ps =>
        cases l2 with
        | nil => rfl
        | cons q qs =>
          obtain ⟨pe, pc⟩ := p
          obtain ⟨qe, qc⟩ := q
          simp only [mulListLexRev, mulListLex]
          rw [ihe pe qe (by simp at h; omega), ihe pc qc (by simp at h; omega),
              ihe qe pe (by simp at h; omega), ihe qc pc (by simp at h; omega),
              ihm ps qs (by simp at h; omega)]

/-- egreater is Expression::less with the operands swapped. -/
theorem egreaterSwap (a b : Expr) : egreater a b = eless b a :=
  (swapAll (sizeOf a + sizeOf b + 1)).1 a b (by omega)

/-- The Add coefficient conjunction helper agrees with List.all over the
term keys. -/
theorem isPolyAddList_eq_all (ts : List (Expr × ℚ)) :
    isPolyAddList ts = ts.all (fun p => isPolynomial p.1) := by
  induction ts with
  | nil => rfl
  | cons p rest ih => simp [isPolyAddList, List.all, ih]

/-- The Mul factor conjunction helper agrees with List.all over the
factor entries. -/
theorem isPolyMulList_eq_all (fs : List (Expr × Expr)) :
    isPolyMulList fs = fs.all (fun p => isPolynomial p.1 && expIsNonnegIntConst p.2) := by
  induction fs with
  | nil => rfl
  | cons p rest ih => simp [isPolyMulList, List.all, ih]

/-- C1: the claim says that adding any expression b to an Add cell merges
b into the term map (a Mul operand entering as a term with its
coefficient) and yields the mathematical sum.  On the code, z*w builds a
Mul cell with constant one, and the Add factory's merge switch drops such
an operand without recording it, so (x+y) + (z*w) returns x+y; a Mul
operand with constant two, such as 2*z, lands in the unreachable branch
of the same switch and the operation fails instead of producing the
sum. -/
theorem c1_addition_flattening_drops_mul_operand :
    mulE 64 (Expr.var 2) (Expr.var 3) =
      .ok (Expr.mul 1 [(Expr.var 2, Expr.const 1), (Expr.var 3, Expr.const 1)]) ∧
    (do let a ← addE 64 (Expr.var 0) (Expr.var 1)
        let m ← mulE 64 (Expr.var 2) (Expr.var 3)
        addE 64 a m) = .ok (Expr.add 0 [(Expr.var 0, 1), (Expr.var 1, 1)]) ∧
    (do let a ← addE 64 (Expr.var 0) (Expr.var 1)
        let m ← mulT 64 (Expr.var 2) 2
        addE 64 a m) = .error .unreachableBranch := by
  refine ⟨?_, ?_, ?_⟩ <;> with_unfolding_all rfl

/-- C2 (counterexample): constructing Expression(5.0) / Expression(0.0)
simplifies to the NaN sentinel, so its evaluation fails with the
cannot-evaluate-NaN condition and not with a division-by-zero condition
as the claim states. -/
theorem c2_counterexample :
    (do let d ← divE 64 (Expr.const 5) (Expr.const 0)
        evaluate d []) = Except.error Err.cannotEvaluateNaN ∧
    isDivisionByZeroErr (do let d ← divE 64 (Expr.const 5) (Expr.const 0)
                            evaluate d []) = false := by
  refine ⟨?_, ?_⟩ <;> with_unfolding_all rfl

/-- C2 (amended): dividing any expression by the constant zero simplifies
at construction time to the NaN sentinel cell, so no Div cell with a
literal-zero denominator is built; evaluating Expression(5.0) /
Expression(0.0) therefore fails with the cannot-evaluate-NaN condition;
and when a Div cell's denominator evaluates to exact zero at evaluate
time, evaluate fails with the division-by-zero error carrying the
numerator, and with the indeterminate-form error when the numerator is
also zero. -/
theorem c2_division_by_zero_amended (f : Nat) (e num den : Expr) (env : Env) (v : ℚ)
    (hnum : evaluate num env = .ok v) (hden : evaluate den env = .ok 0) :
    divE (f + 1) e (Expr.const 0) = .ok Expr.nan ∧
    (do let d ← divE 64 (Expr.const 5) (Expr.const 0)
        evaluate d []) = Except.error Err.cannotEvaluateNaN ∧
    evaluate (Expr.div num den) env =
      .error (if v == 0 then Err.indeterminateForm else Err.divisionByZero v) := by
  refine ⟨by simp [divE, isConstantVal, except_pure], by with_unfolding_all rfl, ?_⟩
  simp only [evaluate, hnum, hden, except_bind_ok]
  by_cases h : v = 0 <;> simp [h, except_throw]

/-- Witness for C2 (amended) at numerator variable 0 bound to 5 and
denominator variable 1 bound to 0. -/
theorem c2_division_by_zero_amended_witness :
    evaluate (Expr.var 0) [(0, 5), (1, 0)] = .ok 5 ∧
    evaluate (Expr.var 1) [(0, 5), (1, 0)] = .ok 0 ∧
    evaluate (Expr.div (Expr.var 0) (Expr.var 1)) [(0, 5), (1, 0)] =
      .error (if (5:ℚ) == 0 then Err.indeterminateForm else Err.divisionByZero 5) :=
  ⟨by with_unfolding_all rfl, by with_unfolding_all rfl,
   (c2_division_by_zero_amended 63 (Expr.var 0) (Expr.var 0) (Expr.var 1)
      [(0, 5), (1, 0)] 5 (by with_unfolding_all rfl) (by with_unfolding_all rfl)).2.2⟩

/-- C3: expansion does not preserve evaluation.  The expression
e = (x + z*w) + 1 is the Add cell 1 + x + z*w; it evaluates to 2 in the
integer environment x=0, z=1, w=1, but e.expand() silently drops the z*w
term (the Add factory ignores Mul operands with constant one while
re-summing the expanded terms) and returns 1 + x, which evaluates to 1:
exact equality fails for integer scalars with all free variables
bound. -/
theorem c3_expand_changes_evaluation :
    (do let m ← mulE 64 (Expr.var 2) (Expr.var 3)
        let a ← addE 64 (Expr.var 0) m
        addT 64 a 1) =
      .ok (Expr.add 1 [(Expr.var 0, 1),
            (Expr.mul 1 [(Expr.var 2, Expr.const 1), (Expr.var 3, Expr.const 1)], 1)]) ∧
    evaluate (Expr.add 1 [(Expr.var 0, 1),
        (Expr.mul 1 [(Expr.var 2, Expr.const 1), (Expr.var 3, Expr.const 1)], 1)])
      [(0, 0), (2, 1), (3, 1)] = .ok 2 ∧
    expandF 64 (Expr.add 1 [(Expr.var 0, 1),
        (Expr.mul 1 [(Expr.var 2, Expr.const 1), (Expr.var 3, Expr.const 1)], 1)]) =
      .ok (Expr.add 1 [(Expr.var 0, 1)]) ∧
    evaluate (Expr.add 1 [(Expr.var 0, 1)]) [(0, 0), (2, 1), (3, 1)] = .ok 1 := by
  refine ⟨?_, ?_, ?_, ?_⟩ <;> with_unfolding_all rfl

/-- C4: expansion is not idempotent.  For e = ((x+y)^(-1) * z)^(-2),
constructible over every scalar type, e.expand() succeeds and returns the
Mul cell z^(-2) * (x+y)^2 (the Mul-base branch of expand_pow multiplies
the factor exponents by -2 without expanding the resulting square), but
expanding that result again fails: expand_pow now squares x+y through
expand_multiplication, which reaches x * x, whose simplification to
pow(x, 2) reads lhs() of the Var cell and lands in the unreachable
branch.  Re-expanding an expanded expression is thus not a no-op. -/
theorem c4_expand_not_idempotent :
    (do let a ← addE 64 (Expr.var 0) (Expr.var 1)
        let p ← powE 64 a (Expr.const (-1))
        let b ← mulE 64 p (Expr.var 2)
        powE 64 b (Expr.const (-2))) =
      .ok (Expr.pow (Expr.mul 1 [(Expr.var 2, Expr.const 1),
            (Expr.add 0 [(Expr.var 0, 1), (Expr.var 1, 1)], Expr.const (-1))])
           (Expr.const (-2))) ∧
    expandF 64 (Expr.pow (Expr.mul 1 [(Expr.var 2, Expr.const 1),
          (Expr.add 0 [(Expr.var 0, 1), (Expr.var 1, 1)], Expr.const (-1))])
         (Expr.const (-2))) =
      .ok (Expr.mul 1 [(Expr.var 2, Expr.const (-2)),
            (Expr.add 0 [(Expr.var 0, 1), (Expr.var 1, 1)], Expr.const 2)]) ∧
    expandF 64 (Expr.mul 1 [(Expr.var 2, Expr.const (-2)),
          (Expr.add 0 [(Expr.var 0, 1), (Expr.var 1, 1)], Expr.const 2)]) =
      .error .unreachableBranch := by
  refine ⟨?_, ?_, ?_⟩ <;> with_unfolding_all rfl

/-- C5: the fast-power comparison cannot be made because both sides fail.
Direct repeated multiplication (x+y) * (x+y) hits the x * x => pow(x, 2)
rewrite, which reads lhs() of the non-Pow non-Div Add cell and lands in
the unreachable branch; expanding (x+y)^2 by repeated squaring reaches
x * x on Var cells inside expand_multiplication and fails the same
way. -/
theorem c5_fast_power_unreachable :
    (do let a ← addE 64 (Expr.var 0) (Expr.var 1)
        mulE 64 a a) = .error .unreachableBranch ∧
    (do let a ← addE 64 (Expr.var 0) (Expr.var 1)
        let p ← powE 64 a (Expr.const 2)
        expandF 64 p) = .error .unreachableBranch ∧
    mulE 64 (Expr.var 0) (Expr.var 0) = .error .unreachableBranch := by
  refine ⟨?_, ?_, ?_⟩ <;> with_unfolding_all rfl

/-- C6 (counterexample): the Div cell x/y reports is_polynomial() = true,
because ExpressionDiv does not override compute_is_polynomial and
inherits the conjunction of its operands from BinaryExpressionCell; the
claim says every Div cell always returns false. -/
theorem c6_counterexample :
    isPolynomial (Expr.div (Expr.var 0) (Expr.var 1)) = true := by
  with_unfolding_all rfl

/-- C6 (amended): the per-kind is_polynomial table of the code: Constant
and Var cells are true; an Add cell is the conjunction over its term
keys; a Mul cell is the conjunction over factors of (base polynomial and
exponent a non-negative integer constant); a Pow cell is (base polynomial
and the same exponent condition); a Div cell is the conjunction of its
two operands (inherited, not always false); and the NaN cell returns
false (memoized at construction), it does not fail. -/
theorem c6_is_polynomial_table :
    (∀ c : ℚ, isPolynomial (Expr.const c) = true) ∧
    (∀ v : VarId, isPolynomial (Expr.var v) = true) ∧
    (∀ c ts, isPolynomial (Expr.add c ts) = ts.all (fun p => isPolynomial p.1)) ∧
    (∀ c fs, isPolynomial (Expr.mul c fs) =
      fs.all (fun p => isPolynomial p.1 && expIsNonnegIntConst p.2)) ∧
    (∀ a b : Expr, isPolynomial (Expr.pow a b) =
      (isPolynomial a && expIsNonnegIntConst b)) ∧
    (∀ a b : Expr, isPolynomial (Expr.div a b) = (isPolynomial a && isPolynomial b)) ∧
    isPolynomial Expr.nan = false := by
  refine ⟨fun c => rfl, fun v => rfl, fun c ts => ?_, fun c fs => ?_,
    fun a b => rfl, fun a b => rfl, rfl⟩
  · rw [show isPolynomial (Expr.add c ts) = isPolyAddList ts from rfl,
        isPolyAddList_eq_all]
  · rw [show isPolynomial (Expr.mul c fs) = isPolyMulList fs from rfl,
        isPolyMulList_eq_all]

/-- C7: both canonical-map invariants are violated by reachable cells.
(x+y) + (-(x+y)) builds the Add cell 0 + 0*x + 0*y, whose term map sends
both x and y to the coefficient zero (the Add-to-Add merge never erases
zero-result entries, and the display routine would fail its own coeff !=
0 assertion on this cell); and (x*2) * (pow(x,-1)*3) builds the Mul cell
6 * x^0, whose factor map holds a constant-zero exponent (the
Mul-to-Mul merge path has no zero-exponent erasure). -/
theorem c7_canonical_map_invariants_violated :
    (do let a ← addE 64 (Expr.var 0) (Expr.var 1)
        let n ← negE 64 a
        addE 64 a n) = .ok (Expr.add 0 [(Expr.var 0, 0), (Expr.var 1, 0)]) ∧
    (do let m1 ← mulT 64 (Expr.var 0) 2
        let p ← powE 64 (Expr.var 0) (Expr.const (-1))
        let m2 ← mulT 64 p 3
        mulE 64 m1 m2) = .ok (Expr.mul 6 [(Expr.var 0, Expr.const 0)]) := by
  refine ⟨?_, ?_⟩ <;> with_unfolding_all rfl

/-- C8 (counterexample): less is not antisymmetric on same-kind cells.
The reachable Add cells a = 1 + 2*x (term map x -> 2, built as (1+x)+x)
and b = 1 + y (term map y -> 1) have the same kind and are not
structurally equal, yet both less(a, b) and less(b, a) hold: the entry
comparator of ExpressionAdd::less repeats the key-less test where the
key-equality test was intended, so the pair ((y,1), (x,2)) falls through
to the coefficient comparison 1 < 2 even though y is not less than x. -/
theorem c8_counterexample :
    (do let a1 ← addE 64 (Expr.const 1) (Expr.var 0)
        addE 64 a1 (Expr.var 0)) = .ok (Expr.add 1 [(Expr.var 0, 2)]) ∧
    addE 64 (Expr.const 1) (Expr.var 1) = .ok (Expr.add 1 [(Expr.var 1, 1)]) ∧
    eless (Expr.add 1 [(Expr.var 0, 2)]) (Expr.add 1 [(Expr.var 1, 1)]) = true ∧
    eless (Expr.add 1 [(Expr.var 1, 1)]) (Expr.add 1 [(Expr.var 0, 2)]) = true ∧
    eequal (Expr.add 1 [(Expr.var 0, 2)]) (Expr.add 1 [(Expr.var 1, 1)]) = false := by
  refine ⟨?_, ?_, ?_, ?_, ?_⟩ <;> with_unfolding_all rfl

/-- C8 (amended): less orders Constants by value and Vars by variable id,
and Pow/Div cells lexicographically by (first operand, second operand);
Add and Mul cells compare their constant first and then run
std::lexicographical_compare over the map entries with an entry
comparator that returns key-less or, whenever the first key is not less
than the second (the key-equality branch repeats the key-less test),
value-less; this order is total in the exactly-one sense on Constant and
Var cells, but not on Add/Mul cells (see the counterexample). -/
theorem c8_less_characterization :
    (∀ q1 q2 : ℚ, eless (Expr.const q1) (Expr.const q2) = decide (q1 < q2)) ∧
    (∀ v1 v2 : VarId, eless (Expr.var v1) (Expr.var v2) = decide (v1 < v2)) ∧
    (∀ a1 b1 a2 b2 : Expr, eless (Expr.pow a1 b1) (Expr.pow a2 b2) =
      (eless a1 a2 || (eequal a1 a2 && eless b1 b2))) ∧
    (∀ a1 b1 a2 b2 : Expr, eless (Expr.div a1 b1) (Expr.div a2 b2) =
      (eless a1 a2 || (eequal a1 a2 && eless b1 b2))) ∧
    (∀ c1 t1 c2 t2, eless (Expr.add c1 t1) (Expr.add c2 t2) =
      (if c1 < c2 then true else if c2 < c1 then false else addListLex t1 t2)) ∧
    (∀ (p q : Expr × ℚ) ps qs, addListLex (p :: ps) (q :: qs) =
      (if addEntryLess p q then true else if addEntryLess q p then false
       else addListLex ps qs)) ∧
    (∀ c1 f1 c2 f2, eless (Expr.mul c1 f1) (Expr.mul c2 f2) =
      (if c1 < c2 then true else if c2 < c1 then false else mulListLex f1 f2)) ∧
    (∀ (p q : Expr × Expr) ps qs, mulListLex (p :: ps) (q :: qs) =
      (if mulEntryLess p q then true else if mulEntryLess q p then false
       else mulListLex ps qs)) ∧
    (∀ q1 q2 : ℚ, q1 ≠ q2 → Bool.xor (eless (Expr.const q1) (Expr.const q2))
      (eless (Expr.const q2) (Expr.const q1)) = true) ∧
    (∀ v1 v2 : VarId, v1 ≠ v2 → Bool.xor (eless (Expr.var v1) (Expr.var v2))
      (eless (Expr.var v2) (Expr.var v1)) = true) := by
  refine ⟨fun q1 q2 => ?_, fun v1 v2 => ?_, fun a1 b1 a2 b2 => ?_, fun a1 b1 a2 b2 => ?_,
    fun c1 t1 c2 t2 => ?_, fun p q ps qs => ?_, fun c1 f1 c2 f2 => ?_, fun p q ps qs => ?_,
    fun q1 q2 h => ?_, fun v1 v2 h => ?_⟩
  · rw [eless.eq_def]; simp [kindIdx]
  · rw [eless.eq_def]; simp [kindIdx]
  · rw [eless.eq_def]; simp [kindIdx]
  · rw [eless.eq_def]; simp [kindIdx]
  · rw [eless.eq_def]; simp [kindIdx]
  · obtain ⟨pe, pc⟩ := p
    obtain ⟨qe, qc⟩ := q
    simp only [addListLex, addEntryLess]
    rw [egreaterSwap]
  · rw [eless.eq_def]; simp [kindIdx]
  · obtain ⟨pe, pc⟩ := p
    obtain ⟨qe, qc⟩ := q
    simp only [mulListLex, mulEntryLess]
    rw [egreaterSwap, egreaterSwap]
  · rcases lt_trichotomy q1 q2 with hlt | heq | hgt
    · simp only [eless.eq_def]
      simp [kindIdx, hlt, lt_asymm hlt]
    · exact absurd heq h
    · simp only [eless.eq_def]
      simp [kindIdx, hgt, lt_asymm hgt]
  · rcases lt_trichotomy v1 v2 with hlt | heq | hgt
    · simp only [eless.eq_def]
      simp [kindIdx, hlt, Nat.lt_asymm hlt]
    · exact absurd heq h
    · simp only [eless.eq_def]
      simp [kindIdx, hgt, Nat.lt_asymm hgt]

/-- Witness for C8 (amended) at the constants 1, 2 and the variable ids
0, 1. -/
theorem c8_less_characterization_witness :
    (1:ℚ) ≠ 2 ∧ (0:VarId) ≠ 1 ∧
    Bool.xor (eless (Expr.const 1) (Expr.const 2))
      (eless (Expr.const 2) (Expr.const 1)) = true ∧
    Bool.xor (eless (Expr.var 0) (Expr.var 1)) (eless (Expr.var 1) (Expr.var 0)) = true :=
  ⟨by norm_num, by norm_num,
   c8_less_characterization.2.2.2.2.2.2.2.2.1 1 2 (by norm_num),
   c8_less_characterization.2.2.2.2.2.2.2.2.2 0 1 (by norm_num)⟩

/-- C9: the pow-of-pow fold crashes instead of folding or leaving the
expression as is.  For (x^2)^3 the operator reaches the fold branch
(pow base with constant inner exponent, constant outer exponent) and
reads o.rhs() where o is the Constant outer exponent, landing in the
unreachable branch of Expression::rhs; the same happens for a non-integer
outer exponent such as 1/2, so the claimed fold to pow(b, e1*e2) never
happens and the claimed leave-as-is fallback is unreachable whenever both
exponents are constants. -/
theorem c9_pow_fold_unreachable :
    (do let p ← powE 64 (Expr.var 0) (Expr.const 2)
        powE 64 p (Expr.const 3)) = .error .unreachableBranch ∧
    powE 64 (Expr.pow (Expr.var 0) (Expr.const 2)) (Expr.const (1/2)) =
      .error .unreachableBranch := by
  refine ⟨?_, ?_⟩ <;> with_unfolding_all rfl

/-- C10 (counterexample): for a constant dividend the claimed product is
not built: 5 / y reaches the (c / E) * rhs rewrite of operator*= with the
Div cell as the right operand and a Constant left operand, reads lhs() of
that Constant cell, and fails in the unreachable branch instead of
returning 5 * Div(5, y). -/
theorem c10_counterexample :
    divE 64 (Expr.const 5) (Expr.var 0) = .error .unreachableBranch := by
  with_unfolding_all rfl

/-- C10 (amended): when none of the division simplifications applies and
the dividend is a variable (more generally a non-Constant, non-Mul cell),
a / b returns a * Div(a, b): for distinct variables x and y, x / y builds
the Mul cell with factor map x -> 1, Div(x, y) -> 1, and evaluating it
under x -> vx, y -> vy with vy nonzero returns vx*vx/vy rather than
vx/vy. -/
theorem c10_var_quotient (f : Nat) (x y : VarId) (vx vy : ℚ)
    (hxy : x ≠ y) (hvy : vy ≠ 0) :
    divE (f + 7) (Expr.var x) (Expr.var y) =
      .ok (Expr.mul 1 [(Expr.var x, Expr.const 1),
           (Expr.div (Expr.var x) (Expr.var y), Expr.const 1)]) ∧
    evaluate (Expr.mul 1 [(Expr.var x, Expr.const 1),
        (Expr.div (Expr.var x) (Expr.var y), Expr.const 1)]) [(x, vx), (y, vy)] =
      .ok (vx * vx / vy) := by
  have hxy' : (x == y) = false := beq_eq_false_iff_ne.mpr hxy
  have hvy' : (vy == 0) = false := beq_eq_false_iff_ne.mpr hvy
  constructor
  · simp [divE, mulE, isConstantVal, eequal, hxy', mulETail, mulFlatten, MulFactory.fromExpr,
          mfTimesCell, mfMapAdd, addE, isMul, isDiv, isAdd, isConst, isPow, eless, kindIdx,
          MulFactory.build, except_bind_ok, except_pure]
  · simp [evaluate, evalMulList, envAt, hxy', hvy', hvy, except_bind_ok, except_pure,
          mul_div_assoc]

/-- Witness for C10 (amended) at the variables 0, 1 with values 2, 3. -/
theorem c10_var_quotient_witness :
    (0:VarId) ≠ 1 ∧ (3:ℚ) ≠ 0 ∧
    divE 64 (Expr.var 0) (Expr.var 1) =
      .ok (Expr.mul 1 [(Expr.var 0, Expr.const 1),
           (Expr.div (Expr.var 0) (Expr.var 1), Expr.const 1)]) ∧
    evaluate (Expr.mul 1 [(Expr.var 0, Expr.const 1),
        (Expr.div (Expr.var 0) (Expr.var 1), Expr.const 1)]) [(0, 2), (1, 3)] =
      .ok (2 * 2 / 3) :=
  ⟨by norm_num, by norm_num,
   (c10_var_quotient 57 0 1 2 3 (by norm_num) (by norm_num)).1,
   (c10_var_quotient 57 0 1 2 3 (by norm_num) (by norm_num)).2⟩

end Smats
